import Mathlib

/-!
A shallow embedding of the kev-check-demo scanner core: the TTL cache
(`internal/cache/cache.go`), the KEV catalog parser (`internal/clients/kev.go`),
the OSV batch client, the EPSS client, and the `Scanner.Scan` cross-reference
pipeline (package `scanner` / package `clients`).

Go maps are modelled as functions `κ → Option v` (a Go map lookup `m[k]`
returning `(v, ok)`); inserting `m[k] = v` is pointwise update.  Where Go code
ranges over a map and the iteration order is observable, the order is passed in
explicitly as a list, since Go randomizes map iteration order.  `float64`
score fields are modelled as `Rat`: every comparison the code performs on them
is a plain order comparison on finite decimal values.  Wall-clock instants and
durations (`time.Time`, `time.Duration`) are modelled as integers.
-/

namespace KevCheck

/-! ## Data model (`internal/models`) -/

/-- The calendar-date component of a Go `time.Time` (only dates are ever
stored: `time.Parse("2006-01-02", s)`). -/
structure Date where
  year : Nat
  month : Nat
  day : Nat
deriving DecidableEq, Repr

/-- The Go zero `time.Time` is January 1, year 1. -/
def zeroDate : Date := ⟨1, 1, 1⟩

/-- `models.Dependency`. -/
structure Dependency where
  name : String
  version : String
  ecosystem : String
  sourceFile : String
  line : Nat
deriving DecidableEq, Repr

/-- `models.CVEInfo`. -/
structure CVEInfo where
  id : String
  summary : String
  source : String
deriving DecidableEq, Repr

/-- `models.KEVInfo`.  `epssScore`/`epssPercentile` are the Go `float64`
fields, modelled as rationals. -/
structure KEVInfo where
  cveID : String
  vendorProject : String
  product : String
  vulnerabilityName : String
  dateAdded : Date
  dueDate : Date
  shortDescription : String
  requiredAction : String
  ransomwareUse : Bool
  cwes : List String
  notes : String
  epssScore : Rat
  epssPercentile : Rat
deriving DecidableEq, Repr

/-- `models.EPSSScore`. -/
structure EPSSScore where
  score : Rat
  percentile : Rat
deriving DecidableEq, Repr

/-- `models.Finding`. -/
structure Finding where
  dependency : Dependency
  cves : List CVEInfo
  kevs : List KEVInfo
deriving DecidableEq, Repr

/-! ## TTL cache (`internal/cache/cache.go`)

The filesystem is a map from path to file content plus modification time;
`os.Stat`/`os.ReadFile` are lookups into it, `os.WriteFile` is an update that
stamps the current instant as the modification time.  `keyToFilename` (a
truncated SHA-256 hex digest of the key, from the crypto stdlib) is carried as
an opaque function parameter: the claims proved here depend only on it being a
function of the key. -/

/-- File content (`[]byte`) and modification time. -/
structure FSEntry where
  data : List Nat
  modTime : Int
deriving DecidableEq, Repr

/-- The filesystem state visible to the cache: path → file. -/
def FS : Type := String → Option FSEntry

/-- `cache.Cache`: directory plus TTL (`time.Duration` as an integer). -/
structure Cache where
  dir : String
  ttl : Int
deriving DecidableEq, Repr

/-- `Cache.Path`: directory joined with `keyToFilename key`. -/
def Cache.Path (c : Cache) (keyToFilename : String → String) (key : String) : String :=
  c.dir ++ "/" ++ keyToFilename key

/-- `Cache.Get`: stat the file (absent → miss); expired when
`time.Since(modTime) > TTL`, i.e. `now - modTime > ttl` → miss; otherwise read
and return `(data, true)`. -/
def Cache.Get (c : Cache) (keyToFilename : String → String) (fs : FS) (now : Int)
    (key : String) : Option (List Nat) × Bool :=
  match fs (c.Path keyToFilename key) with
  | none => (none, false)
  | some e => if c.ttl < now - e.modTime then (none, false) else (some e.data, true)

/-- `Cache.Set`: `os.WriteFile` of the data at the key's path; the file's
modification time becomes the current instant. -/
def Cache.Set (c : Cache) (keyToFilename : String → String) (fs : FS) (now : Int)
    (key : String) (data : List Nat) : FS :=
  fun p => if p = c.Path keyToFilename key then some ⟨data, now⟩ else fs p

/-! ## KEV catalog client (`internal/clients/kev.go`)

`parseKEVData` receives the decoded `vulnerabilities` array of the catalog
document and builds the Go map `cveID → KEVInfo`.  The date strings go through
`time.Parse("2006-01-02", ·)` with the error ignored, so an unparsable date
leaves the field at the Go zero `time.Time`; `parseDate` models that stdlib
parse for the fixed layout `2006-01-02` (four year digits, two month digits,
two day digits, dashes in between, month and day range-checked). -/

/-- Numeric value of a decimal digit character. -/
def digitVal (c : Char) : Nat := c.toNat - '0'.toNat

/-- Day count of a month, with the Gregorian leap-year rule (as validated by
Go `time.Parse`). -/
def daysInMonth (year month : Nat) : Nat :=
  if month = 2 then
    if year % 400 = 0 ∨ (year % 4 = 0 ∧ ¬year % 100 = 0) then 29 else 28
  else if month = 4 ∨ month = 6 ∨ month = 9 ∨ month = 11 then 30
  else 31

/-- `time.Parse("2006-01-02", s)`: `none` models a parse error. -/
def parseDate (s : String) : Option Date :=
  match s.toList with
  | [y1, y2, y3, y4, h1, m1, m2, h2, d1, d2] =>
    if y1.isDigit ∧ y2.isDigit ∧ y3.isDigit ∧ y4.isDigit ∧ h1 = '-' ∧
        m1.isDigit ∧ m2.isDigit ∧ h2 = '-' ∧ d1.isDigit ∧ d2.isDigit then
      let y := ((digitVal y1 * 10 + digitVal y2) * 10 + digitVal y3) * 10 + digitVal y4
      let m := digitVal m1 * 10 + digitVal m2
      let d := digitVal d1 * 10 + digitVal d2
      if 1 ≤ m ∧ m ≤ 12 ∧ 1 ≤ d ∧ d ≤ daysInMonth y m then some ⟨y, m, d⟩ else none
    else none
  | _ => none

/-- `clients.VulnerabilityJSON`: one decoded entry of the catalog's
`vulnerabilities` array. -/
structure VulnerabilityJSON where
  cveID : String
  vendorProject : String
  product : String
  vulnerabilityName : String
  dateAdded : String
  shortDescription : String
  requiredAction : String
  dueDate : String
  knownRansomwareCampaignUse : String
  notes : String
  cwes : List String
deriving DecidableEq, Repr

/-- Insertion into a Go map with `String` keys. -/
def mapInsert {α : Type} (m : String → Option α) (k : String) (v : α) :
    String → Option α :=
  fun c => if c = k then some v else m c

/-- The `models.KEVInfo` built from one catalog entry inside `parseKEVData`:
dates parsed with the error discarded, `ransomwareUse` true exactly for
`"Known"`, EPSS fields at their `float64` zero value. -/
def toKEVInfo (v : VulnerabilityJSON) : KEVInfo :=
  { cveID := v.cveID
    vendorProject := v.vendorProject
    product := v.product
    vulnerabilityName := v.vulnerabilityName
    dateAdded := (parseDate v.dateAdded).getD zeroDate
    dueDate := (parseDate v.dueDate).getD zeroDate
    shortDescription := v.shortDescription
    requiredAction := v.requiredAction
    ransomwareUse := v.knownRansomwareCampaignUse = "Known"
    cwes := v.cwes
    notes := v.notes
    epssScore := 0
    epssPercentile := 0 }

/-- `parseKEVData` after JSON decoding: fold the array into the catalog map,
each entry overwriting any earlier entry with the same `cveID`. -/
def parseKEVData (vulns : List VulnerabilityJSON) : String → Option KEVInfo :=
  vulns.foldl (fun m v => mapInsert m v.cveID (toKEVInfo v)) (fun _ => none)

/-- A concrete catalog entry used by the C8 witness: parsable `dateAdded`,
unparsable `dueDate`. -/
def exVulnA : VulnerabilityJSON :=
  ⟨"CVE-2021-44228", "Apache", "Log4j", "Log4Shell", "2021-12-10",
   "RCE in log4j", "Patch", "2021-12-24", "Known", "", ["CWE-502"]⟩

/-- A later duplicate of the same CVE ID with both dates unparsable. -/
def exVulnB : VulnerabilityJSON :=
  ⟨"CVE-2021-44228", "Apache", "Log4j", "Log4Shell again", "not-a-date",
   "RCE in log4j", "Patch", "also-bad", "Unknown", "", []⟩

/-! ## OSV batch client (package `clients`, `QueryBatch` / `queryChunk` /
`extractCVEIDs`)

The remote service is modelled by a response oracle `resp : Dependency →
List OSVVuln`: per the OSV batch API contract, the response to a chunk holds
one result per query, in query order, each determined by the queried package
and version.  `queryChunk` builds the Go map `results` by appending one
`CVEInfo` per extracted CVE ID under the chunk-local index `j`; the net effect
per index is that `j` is bound exactly when at least one `CVEInfo` was
appended, to the full per-dependency list, which `queryChunkAux` performs in
one step per dependency. -/

/-- A decoded OSV vulnerability entry (`osvVulnerability`). -/
structure OSVVuln where
  id : String
  aliases : List String
  summary : String
  details : String
deriving DecidableEq, Repr

/-- `strings.HasPrefix(s, "CVE-")`, computed on the character list. -/
def isCVE (s : String) : Bool := "CVE-".toList.isPrefixOf s.toList

/-- One step of `extractCVEIDs`: the accumulated output slice paired with the
`seen` set; a token is appended when it has the `CVE-` prefix and was not seen
before. -/
def addCVE (acc : List String × List String) (s : String) : List String × List String :=
  if isCVE s && !acc.2.contains s then (acc.1 ++ [s], acc.2 ++ [s]) else acc

/-- `extractCVEIDs`: the entry's own ID first, then the aliases, deduplicated
through the `seen` set. -/
def extractCVEIDs (id : String) (aliases : List String) : List String :=
  (aliases.foldl addCVE (addCVE ([], []) id)).1

/-- The `CVEInfo` entries one dependency's OSV result contributes: for each
vulnerability of the result, one entry per extracted CVE ID, with the
vulnerability's summary and source `"OSV"`. -/
def depCVEInfos (vulns : List OSVVuln) : List CVEInfo :=
  vulns.flatMap (fun v => (extractCVEIDs v.id v.aliases).map (fun c => ⟨c, v.summary, "OSV"⟩))

/-- Insertion into a Go map with `int` keys. -/
def natMapInsert {α : Type} (m : Nat → Option α) (k : Nat) (v : α) : Nat → Option α :=
  fun j => if j = k then some v else m j

/-- The loop of `queryChunk` over the chunk's results, chunk-local index `j`
onward, accumulating into the Go map `m`. -/
def queryChunkAux (resp : Dependency → List OSVVuln) :
    List Dependency → Nat → (Nat → Option (List CVEInfo)) → (Nat → Option (List CVEInfo))
  | [], _, m => m
  | d :: rest, j, m =>
    let cves := depCVEInfos (resp d)
    queryChunkAux resp rest (j + 1) (if cves.isEmpty then m else natMapInsert m j cves)

/-- `queryChunk`: one POST for the given dependencies; the returned Go map
binds chunk-local indices to their non-empty `CVEInfo` lists. -/
def queryChunk (resp : Dependency → List OSVVuln) (deps : List Dependency) :
    Nat → Option (List CVEInfo) :=
  queryChunkAux resp deps 0 (fun _ => none)

/-- The per-index meaning of an OSV result map over `deps`: the index's
`CVEInfo` list when the index is in range and that list is non-empty, absent
otherwise. -/
def depLookup (resp : Dependency → List OSVVuln) (deps : List Dependency) (k : Nat) :
    Option (List CVEInfo) :=
  (deps[k]?).bind fun d =>
    if (depCVEInfos (resp d)).isEmpty then none else some (depCVEInfos (resp d))

/-- First-bound-wins layering of one optional binding over a fallback. -/
def override {α : Type} (o : Option α) (fallback : Option α) : Option α :=
  match o with
  | some c => some c
  | none => fallback

/-- The chunk loop of `QueryBatch`: slice off 100 dependencies, query them,
copy the non-empty results re-offset by the chunk's starting global index, and
continue with the remainder.  Chunk key ranges are disjoint, so the lookup of
an index in the current chunk's range is decided by that chunk alone. -/
def queryBatchAux (resp : Dependency → List OSVVuln) :
    List Dependency → Nat → Nat → Option (List CVEInfo)
  | [], _, _ => none
  | d :: ds, start, idx =>
    if start ≤ idx ∧ idx < start + ((d :: ds).take 100).length then
      match queryChunk resp ((d :: ds).take 100) (idx - start) with
      | some cves => if cves.isEmpty then none else some cves
      | none => none
    else queryBatchAux resp ((d :: ds).drop 100) (start + 100) idx
termination_by l _ _ => l.length
decreasing_by
  simp [List.length_drop]
  omega

/-- `QueryBatch`: chunked batch query over all dependencies, global indices
from 0.  (For an empty dependency list both the Go early return and the loop
produce the empty map.) -/
def QueryBatch (resp : Dependency → List OSVVuln) (deps : List Dependency) :
    Nat → Option (List CVEInfo) :=
  queryBatchAux resp deps 0

/-- Concrete dependency whose OSV response carries a CVE. -/
def exDep0 : Dependency := ⟨"django", "3.1.0", "PyPI", "requirements.txt", 1⟩

/-- Concrete dependency whose OSV response is a GHSA-only advisory. -/
def exDep1 : Dependency := ⟨"lodash", "4.17.20", "npm", "package.json", 3⟩

/-- Concrete OSV response oracle for the witnesses. -/
def exResp : Dependency → List OSVVuln := fun d =>
  if d.name = "django" then [⟨"CVE-2021-3281", [], "django vuln", ""⟩]
  else [⟨"GHSA-p6mc-m468-83gw", ["GHSA-jf85-cpcp-j695"], "ghsa only", ""⟩]

/-- Concrete dependency list for the witnesses. -/
def exDeps : List Dependency := [exDep0, exDep1]

/-! ## EPSS client (`FetchScores`)

The remote service and JSON decoding are an oracle `List String →
Option (List EPSSData)`; `none` covers every chunk failure the code skips
(transport error, non-200 status, decode error).  In Go each row's numeric
fields arrive as strings and pass through `strconv.ParseFloat` with the error
discarded — a failed parse yields the zero value, so every decoded row carries
numeric score and percentile values, which the oracle supplies directly. -/

/-- A decoded EPSS data row (`EPSSData`) with its parsed numeric fields. -/
structure EPSSData where
  cve : String
  epss : Rat
  percentile : Rat
deriving DecidableEq, Repr

/-- Slice a list into chunks of 100, mirroring the `for i := 0; i < len; i +=
100` slicing loops; the fuel (initially the list length) only bounds the
recursion and is never exhausted, since every round consumes at least one
element. -/
def chunks100Aux {α : Type} : Nat → List α → List (List α)
  | _, [] => []
  | 0, _ :: _ => []
  | fuel + 1, x :: xs => ((x :: xs).take 100) :: chunks100Aux fuel ((x :: xs).drop 100)

/-- The chunks of 100 the EPSS client queries. -/
def chunks100 {α : Type} (l : List α) : List (List α) := chunks100Aux l.length l

/-- One EPSS row written into the score map: `scores[data.CVE] =
EPSSScore{...}`. -/
def epssInsert (m : String → Option EPSSScore) (row : EPSSData) :
    String → Option EPSSScore :=
  fun c => if c = row.cve then some ⟨row.epss, row.percentile⟩ else m c

/-- The per-chunk step of `FetchScores`: a failing chunk is skipped, a decoded
chunk has each row written into the map. -/
def fetchChunkStep (oracle : List String → Option (List EPSSData))
    (m : String → Option EPSSScore) (chunk : List String) : String → Option EPSSScore :=
  match oracle chunk with
  | some rows => rows.foldl epssInsert m
  | none => m

/-- `FetchScores`: one GET per chunk of 100 IDs; the function returns
`scores, nil` on every path, so the error component is always `none`. -/
def FetchScores (oracle : List String → Option (List EPSSData)) (cveIDs : List String) :
    (String → Option EPSSScore) × Option String :=
  ((chunks100 cveIDs).foldl (fetchChunkStep oracle) (fun _ => none), none)

/-- `Scan` step 5 (`scanner.Scan`): a KEV entry found in the score map gets
both EPSS fields assigned from that one record; otherwise it is left
untouched. -/
def enrichKEV (scores : String → Option EPSSScore) (k : KEVInfo) : KEVInfo :=
  match scores k.cveID with
  | some s => { k with epssScore := s.score, epssPercentile := s.percentile }
  | none => k

/-- `Scan` step 5 over the whole finding list. -/
def enrichFindings (scores : String → Option EPSSScore) (findings : List Finding) :
    List Finding :=
  findings.map fun f => { f with kevs := f.kevs.map (enrichKEV scores) }

/-- A concrete KEV entry at its zero EPSS defaults. -/
def exKEV : KEVInfo :=
  ⟨"CVE-2021-3281", "Django", "Django", "Path traversal", ⟨2021, 2, 3⟩, ⟨2021, 2, 17⟩,
   "desc", "patch", false, [], "", 0, 0⟩

/-- A concrete finding holding `exKEV`. -/
def exFinding : Finding := ⟨exDep0, [⟨"CVE-2021-3281", "django vuln", "OSV"⟩], [exKEV]⟩

/-- A concrete EPSS oracle that decodes the single expected chunk. -/
def exOracleOK : List String → Option (List EPSSData) := fun chunk =>
  if chunk = ["CVE-2021-3281"] then some [⟨"CVE-2021-3281", 1, 1⟩] else none

/-! ## Scanner (`scanner.Scan`, steps 4–6)

Steps 1–3 perform I/O; their results — the dependency list, the KEV catalog
map and the OSV result map — are the pipeline's inputs here.  Step 4 ranges
over the Go map `cvesByDep` with `for depIdx, cves := range cvesByDep`; Go
randomizes map iteration order, so the `(index, CVE list)` sequence actually
iterated is an explicit input `iter`.  Step 5's EPSS fetch is a parameter
`epssFetch` returning the score map (`FetchScores` composed with its
oracle). -/

/-- Placeholder for the (never-taken) out-of-range access `deps[depIdx]`: in
a real run every key of the OSV map indexes `deps`. -/
def noDep : Dependency := ⟨"", "", "", "", 0⟩

/-- The finding one map entry `(depIdx, cves)` yields in step 4: the inner
loop appends, per CVE with a catalog hit, the hit's `KEVInfo`; the finding is
kept only when that list ends non-empty. -/
def xrefFinding (deps : List Dependency) (kevCatalog : String → Option KEVInfo)
    (p : Nat × List CVEInfo) : Option Finding :=
  if (p.2.filterMap (fun cve => kevCatalog cve.id)).isEmpty then none
  else some { dependency := deps.getD p.1 noDep, cves := p.2,
              kevs := p.2.filterMap (fun cve => kevCatalog cve.id) }

/-- The CVE IDs the same inner loop appends to `allKEVCVEs`: one per CVE with
a catalog hit, kept in CVE order, never deduplicated. -/
def xrefIDs (kevCatalog : String → Option KEVInfo) (p : Nat × List CVEInfo) :
    List String :=
  (p.2.filter (fun cve => (kevCatalog cve.id).isSome)).map (fun cve => cve.id)

/-- One iteration of the step-4 loop over the accumulated `(findings,
allKEVCVEs)` pair. -/
def xrefStep (deps : List Dependency) (kevCatalog : String → Option KEVInfo)
    (acc : List Finding × List String) (p : Nat × List CVEInfo) :
    List Finding × List String :=
  (match xrefFinding deps kevCatalog p with
   | some fnd => acc.1 ++ [fnd]
   | none => acc.1,
   acc.2 ++ xrefIDs kevCatalog p)

/-- `Scan` step 4: cross-reference in the iteration order `iter` of the OSV
result map, producing the findings list and `allKEVCVEs`. -/
def crossReference (deps : List Dependency) (iter : List (Nat × List CVEInfo))
    (kevCatalog : String → Option KEVInfo) : List Finding × List String :=
  iter.foldl (xrefStep deps kevCatalog) ([], [])

/-- The EPSS client invocations `Scan` makes in step 5: exactly one call,
with `allKEVCVEs`, when that list is non-empty; none otherwise. -/
def scanEPSSCalls (deps : List Dependency) (iter : List (Nat × List CVEInfo))
    (kevCatalog : String → Option KEVInfo) : List (List String) :=
  if (crossReference deps iter kevCatalog).2.isEmpty then []
  else [(crossReference deps iter kevCatalog).2]

/-- `Scan` step 6 inner loop: KEV entries with `EPSSScore >= threshold` are
kept. -/
def filterKEVs (threshold : Rat) (kevs : List KEVInfo) : List KEVInfo :=
  kevs.filter (fun kev => threshold ≤ kev.epssScore)

/-- `Scan` step 6 outer loop: findings re-assembled with their filtered KEV
lists, dropping any finding left with zero KEV entries. -/
def filterLoop (threshold : Rat) : List Finding → List Finding
  | [] => []
  | f :: rest =>
    if (filterKEVs threshold f.kevs).isEmpty then filterLoop threshold rest
    else { f with kevs := filterKEVs threshold f.kevs } :: filterLoop threshold rest

/-- `Scan` step 6: only applied when a positive EPSS threshold is
configured. -/
def filterFindings (threshold : Rat) (findings : List Finding) : List Finding :=
  if 0 < threshold then filterLoop threshold findings else findings

/-- `scanner.Scan`, steps 4–6: cross-reference, enrich when any CVE matched,
filter by the EPSS threshold. -/
def Scan (deps : List Dependency) (iter : List (Nat × List CVEInfo))
    (kevCatalog : String → Option KEVInfo)
    (epssFetch : List String → (String → Option EPSSScore)) (threshold : Rat) :
    List Finding :=
  filterFindings threshold
    (if (crossReference deps iter kevCatalog).2.isEmpty
     then (crossReference deps iter kevCatalog).1
     else enrichFindings (epssFetch (crossReference deps iter kevCatalog).2)
       (crossReference deps iter kevCatalog).1)

/-- Total KEV entry count of a finding list. -/
def totalKEVs (findings : List Finding) : Nat :=
  (findings.map (fun f => f.kevs.length)).sum

/-- Second concrete KEV catalog entry, for the lodash CVE. -/
def exKEV2 : KEVInfo :=
  ⟨"CVE-2020-8203", "lodash", "lodash", "Prototype pollution", ⟨2021, 1, 1⟩, ⟨2021, 1, 15⟩,
   "desc2", "patch", false, [], "", 0, 0⟩

/-- Concrete CVE record for the django dependency. -/
def exCVE0 : CVEInfo := ⟨"CVE-2021-3281", "django vuln", "OSV"⟩

/-- Concrete CVE record for the lodash dependency. -/
def exCVE1 : CVEInfo := ⟨"CVE-2020-8203", "lodash vuln", "OSV"⟩

/-- Concrete KEV catalog with entries for both example CVEs. -/
def exCatalog : String → Option KEVInfo := fun c =>
  if c = "CVE-2021-3281" then some exKEV
  else if c = "CVE-2020-8203" then some exKEV2 else none

/-- One iteration order of the OSV result map `{0 ↦ [exCVE0], 1 ↦ [exCVE1]}`. -/
def exIter1 : List (Nat × List CVEInfo) := [(0, [exCVE0]), (1, [exCVE1])]

/-- The other iteration order of the same map. -/
def exIter2 : List (Nat × List CVEInfo) := [(1, [exCVE1]), (0, [exCVE0])]

/-- An OSV result map in which two dependencies share the same KEV CVE. -/
def exIterDup : List (Nat × List CVEInfo) := [(0, [exCVE0]), (1, [exCVE0])]

/-- Concrete EPSS fetch result binding only the django CVE. -/
def exEpssFetch : List String → (String → Option EPSSScore) := fun _ => fun c =>
  if c = "CVE-2021-3281" then some ⟨1, 1⟩ else none

/-- `exKEV` as enriched by `exEpssFetch`. -/
def exKEVScored : KEVInfo := { exKEV with epssScore := 1, epssPercentile := 1 }

/-- The finding holding the enriched entry. -/
def exFindingScored : Finding := ⟨exDep0, [exCVE0], [exKEVScored]⟩

/-- C6: `Set(k, v)` then `Get(k)` at a later instant returns `(v, true)` while
the elapsed time is at most the TTL, and `(nil, false)` once the elapsed time
strictly exceeds the TTL, even though the file is present and readable. -/
theorem C6_cache_round_trip (c : Cache) (kf : String → String) (fs : FS)
    (now later : Int) (key : String) (v : List Nat) :
    (later - now ≤ c.ttl →
      Cache.Get c kf (Cache.Set c kf fs now key v) later key = (some v, true)) ∧
    (c.ttl < later - now →
      Cache.Get c kf (Cache.Set c kf fs now key v) later key = (none, false)) := by
  have hpath : Cache.Set c kf fs now key v (c.Path kf key) = some ⟨v, now⟩ := by
    simp [Cache.Set]
  constructor
  · intro h
    simp only [Cache.Get, hpath]
    rw [if_neg (by omega)]
  · intro h
    simp only [Cache.Get, hpath]
    rw [if_pos (by omega)]

/-- Witness for C6 at a concrete cache, filesystem and pair of instants. -/
theorem C6_cache_round_trip_witness :
    Cache.Get ⟨"d", 10⟩ (fun k => k) (Cache.Set ⟨"d", 10⟩ (fun k => k) (fun _ => none) 0 "k" [7]) 10 "k"
      = (some [7], true) ∧
    Cache.Get ⟨"d", 10⟩ (fun k => k) (Cache.Set ⟨"d", 10⟩ (fun k => k) (fun _ => none) 0 "k" [7]) 11 "k"
      = (none, false) :=
  ⟨(C6_cache_round_trip ⟨"d", 10⟩ (fun k => k) (fun _ => none) 0 10 "k" [7]).1 (by decide),
   (C6_cache_round_trip ⟨"d", 10⟩ (fun k => k) (fun _ => none) 0 11 "k" [7]).2 (by decide)⟩

/-- Folding catalog entries over any starting map looks up to the last entry
with the queried `cveID`, falling back to the starting map. -/
theorem parseKEVData_foldl (vulns : List VulnerabilityJSON)
    (m : String → Option KEVInfo) (c : String) :
    (vulns.foldl (fun m v => mapInsert m v.cveID (toKEVInfo v)) m) c =
      match (vulns.filter (fun v => v.cveID = c)).getLast? with
      | some v => some (toKEVInfo v)
      | none => m c := by
  induction vulns generalizing m with
  | nil => rfl
  | cons v rest ih =>
    rw [List.foldl_cons, ih]
    by_cases hv : v.cveID = c
    · rw [List.filter_cons_of_pos (by simpa using hv)]
      cases hf : rest.filter (fun v => decide (v.cveID = c)) with
      | nil => simp [hf, mapInsert, hv]
      | cons w ws =>
        rw [List.getLast?_cons_cons]
        have : (w :: ws).getLast? = some ((w :: ws).getLast (by simp)) :=
          List.getLast?_eq_getLast _ _
        simp only [hf] at this ⊢
        rw [this]
    · rw [List.filter_cons_of_neg (by simpa using hv)]
      cases hf : (rest.filter (fun v => decide (v.cveID = c))).getLast? with
      | some w => simp [hf]
      | none =>
        simp only [hf, mapInsert]
        rw [if_neg (fun h => hv h.symm)]

/-- C8: the catalog map binds each CVE ID to the last catalog entry carrying
it (duplicates never fail the parse, the later entry silently wins), and an
entry whose `dateAdded`/`dueDate` does not parse gets the zero date instead of
failing the fetch. -/
theorem C8_kev_last_entry_wins (vulns : List VulnerabilityJSON) (c : String) :
    parseKEVData vulns c
        = ((vulns.filter (fun v => v.cveID = c)).getLast?).map toKEVInfo ∧
    (∀ v : VulnerabilityJSON,
      parseDate v.dateAdded = none → (toKEVInfo v).dateAdded = zeroDate) ∧
    (∀ v : VulnerabilityJSON,
      parseDate v.dueDate = none → (toKEVInfo v).dueDate = zeroDate) := by
  refine ⟨?_, ?_, ?_⟩
  · rw [parseKEVData, parseKEVData_foldl]
    cases (vulns.filter (fun v => decide (v.cveID = c))).getLast? <;> rfl
  · intro v h
    simp [toKEVInfo, h]
  · intro v h
    simp [toKEVInfo, h]

/-- Witness for C8: on a two-entry catalog whose entries share a CVE ID, the
map holds the second entry, and its unparsable date fields are the zero
date. -/
theorem C8_kev_last_entry_wins_witness :
    parseKEVData [exVulnA, exVulnB] "CVE-2021-44228" = some (toKEVInfo exVulnB) ∧
    (toKEVInfo exVulnB).dateAdded = zeroDate ∧
    (toKEVInfo exVulnB).dueDate = zeroDate :=
  ⟨(C8_kev_last_entry_wins [exVulnA, exVulnB] "CVE-2021-44228").1.trans (by decide),
   (C8_kev_last_entry_wins [exVulnA, exVulnB] "CVE-2021-44228").2.1 exVulnB (by decide),
   (C8_kev_last_entry_wins [exVulnA, exVulnB] "CVE-2021-44228").2.2 exVulnB (by decide)⟩

theorem override_none {α : Type} (fb : Option α) : override none fb = fb := rfl

theorem override_some {α : Type} (c : α) (fb : Option α) : override (some c) fb = some c := rfl

theorem override_none_right {α : Type} (o : Option α) : override o none = o := by
  cases o <;> rfl

theorem depLookup_nil (resp : Dependency → List OSVVuln) (k : Nat) :
    depLookup resp [] k = none := rfl

theorem depLookup_cons_succ (resp : Dependency → List OSVVuln) (d : Dependency)
    (rest : List Dependency) (n : Nat) :
    depLookup resp (d :: rest) (n + 1) = depLookup resp rest n := by
  simp [depLookup]

theorem depLookup_drop (resp : Dependency → List OSVVuln) (l : List Dependency) (n m : Nat) :
    depLookup resp (l.drop n) m = depLookup resp l (n + m) := by
  simp [depLookup, List.getElem?_drop]

theorem depLookup_take (resp : Dependency → List OSVVuln) (l : List Dependency) {n m : Nat}
    (h : m < n) : depLookup resp (l.take n) m = depLookup resp l m := by
  simp [depLookup, List.getElem?_take_of_lt h]

theorem depLookup_of_length_le (resp : Dependency → List OSVVuln) (l : List Dependency)
    {n : Nat} (h : l.length ≤ n) : depLookup resp l n = none := by
  simp [depLookup, List.getElem?_eq_none h]

/-- Lookup characterization of the `queryChunk` loop: indices at or past `j`
read the per-dependency meaning, everything else falls through to the
accumulator. -/
theorem queryChunkAux_lookup (resp : Dependency → List OSVVuln) (rest : List Dependency) :
    ∀ (j : Nat) (m : Nat → Option (List CVEInfo)) (k : Nat),
      queryChunkAux resp rest j m k =
        override (if j ≤ k then depLookup resp rest (k - j) else none) (m k) := by
  induction rest with
  | nil =>
    intro j m k
    rw [queryChunkAux]
    cases h : (if j ≤ k then depLookup resp ([] : List Dependency) (k - j) else none) with
    | some c => rw [depLookup_nil] at h; split at h <;> simp at h
    | none => rw [override_none]
  | cons d rest ih =>
    intro j m k
    rw [queryChunkAux, ih]
    have hm : k ≠ j →
        (if (depCVEInfos (resp d)).isEmpty then m
         else natMapInsert m j (depCVEInfos (resp d))) k = m k := by
      intro hk
      by_cases he : (depCVEInfos (resp d)).isEmpty
      · rw [if_pos he]
      · rw [if_neg he]
        exact if_neg hk
    rcases Nat.lt_trichotomy k j with hk | rfl | hk
    · rw [hm (by omega), if_neg (by omega), if_neg (by omega)]
    · rw [if_neg (by omega), override_none, if_pos (le_refl k), Nat.sub_self]
      by_cases he : (depCVEInfos (resp d)).isEmpty
      · rw [if_pos he]
        have hdl : depLookup resp (d :: rest) 0 = none := by
          simp only [depLookup, List.getElem?_cons_zero, Option.some_bind, if_pos he]
        rw [hdl, override_none]
      · rw [if_neg he]
        have hdl : depLookup resp (d :: rest) 0 = some (depCVEInfos (resp d)) := by
          simp only [depLookup, List.getElem?_cons_zero, Option.some_bind, if_neg he]
        rw [hdl, override_some]
        simp [natMapInsert]
    · rw [hm (by omega), if_pos (by omega), if_pos (by omega)]
      have h1 : k - j = (k - (j + 1)) + 1 := by omega
      rw [h1, depLookup_cons_succ]

/-- `queryChunk` reads exactly the per-dependency meaning. -/
theorem queryChunk_lookup (resp : Dependency → List OSVVuln) (deps : List Dependency)
    (k : Nat) : queryChunk resp deps k = depLookup resp deps k := by
  rw [queryChunk, queryChunkAux_lookup, if_pos (Nat.zero_le k), Nat.sub_zero,
    override_none_right]

/-- `depLookup` never holds an empty list. -/
theorem depLookup_ne_empty (resp : Dependency → List OSVVuln) (deps : List Dependency)
    (k : Nat) (cves : List CVEInfo) (h : depLookup resp deps k = some cves) :
    cves.isEmpty = false := by
  rcases hd : deps[k]? with _ | d
  · rw [depLookup, hd] at h
    simp at h
  · rw [depLookup, hd] at h
    simp only [Option.some_bind] at h
    by_cases he : (depCVEInfos (resp d)).isEmpty
    · rw [if_pos he] at h
      cases h
    · rw [if_neg he] at h
      cases h
      simpa using he

/-- Lookup characterization of the chunk loop of `QueryBatch`. -/
theorem queryBatchAux_lookup (resp : Dependency → List OSVVuln) :
    ∀ (deps : List Dependency) (start idx : Nat),
      queryBatchAux resp deps start idx =
        if start ≤ idx then depLookup resp deps (idx - start) else none
  | [], start, idx => by
    rw [queryBatchAux, depLookup_nil]
    split <;> rfl
  | d :: ds, start, idx => by
    rw [queryBatchAux]
    have hlen : ((d :: ds).take 100).length = min 100 (d :: ds).length :=
      List.length_take 100 (d :: ds)
    by_cases hin : start ≤ idx ∧ idx < start + ((d :: ds).take 100).length
    · rw [if_pos hin, if_pos hin.1, queryChunk_lookup,
        depLookup_take resp (d :: ds) (show idx - start < 100 by omega)]
      cases h : depLookup resp (d :: ds) (idx - start) with
      | some cves =>
        have hne := depLookup_ne_empty resp (d :: ds) _ _ h
        show (if cves.isEmpty then none else some cves) = some cves
        rw [if_neg (by simp [hne])]
      | none => rfl
    · rw [if_neg hin, queryBatchAux_lookup resp ((d :: ds).drop 100) (start + 100) idx]
      by_cases hs : start ≤ idx
      · rw [if_pos hs]
        by_cases hs' : start + 100 ≤ idx
        · rw [if_pos hs', depLookup_drop]
          have harith : 100 + (idx - (start + 100)) = idx - start := by omega
          rw [harith]
        · rw [if_neg hs']
          have hge : (d :: ds).length ≤ idx - start := by
            simp only [List.length_cons] at hlen ⊢
            omega
          rw [depLookup_of_length_le resp (d :: ds) hge]
      · rw [if_neg hs, if_neg (by omega)]
termination_by deps _ _ => deps.length
decreasing_by
  simp [List.length_drop]
  omega

/-- C5: chunking is transparent — the chunked `QueryBatch` map coincides at
every index with the map of one unchunked query over all `N` dependencies,
and binds no index at or past `N`. -/
theorem C5_chunking_transparent (resp : Dependency → List OSVVuln)
    (deps : List Dependency) (idx : Nat) :
    QueryBatch resp deps idx = queryChunk resp deps idx ∧
    (deps.length ≤ idx → QueryBatch resp deps idx = none) := by
  have h : QueryBatch resp deps idx = depLookup resp deps idx := by
    rw [QueryBatch, queryBatchAux_lookup, if_pos (Nat.zero_le idx), Nat.sub_zero]
  exact ⟨h.trans (queryChunk_lookup resp deps idx).symm,
    fun hlen => h.trans (depLookup_of_length_le resp deps hlen)⟩

/-- C10: the `QueryBatch` map never binds an index to an empty CVE list, and a
dependency whose response yields no CVE-prefixed identifiers is absent from
the map entirely. -/
theorem C10_no_empty_bindings (resp : Dependency → List OSVVuln)
    (deps : List Dependency) (idx : Nat) :
    (∀ cves, QueryBatch resp deps idx = some cves → cves ≠ []) ∧
    (∀ d, deps[idx]? = some d → depCVEInfos (resp d) = [] →
      QueryBatch resp deps idx = none) := by
  have h : QueryBatch resp deps idx = depLookup resp deps idx := by
    rw [QueryBatch, queryBatchAux_lookup, if_pos (Nat.zero_le idx), Nat.sub_zero]
  constructor
  · intro cves hc
    have hne := depLookup_ne_empty resp deps idx cves (h ▸ hc)
    exact List.isEmpty_eq_false.mp hne
  · intro d hd hempty
    rw [h, depLookup, hd]
    simp [hempty]

/-- Witness for C5 at a concrete oracle and dependency list. -/
theorem C5_chunking_transparent_witness :
    QueryBatch exResp exDeps 0 = queryChunk exResp exDeps 0 ∧
    QueryBatch exResp exDeps 7 = none :=
  ⟨(C5_chunking_transparent exResp exDeps 0).1,
   (C5_chunking_transparent exResp exDeps 7).2 (by decide)⟩

/-- Witness for C10: the bound index 0 holds a non-empty list, and index 1,
whose response is GHSA-only, is absent from the map. -/
theorem C10_no_empty_bindings_witness :
    ([(⟨"CVE-2021-3281", "django vuln", "OSV"⟩ : CVEInfo)] ≠ []) ∧
    QueryBatch exResp exDeps 1 = none := by
  have hq : QueryBatch exResp exDeps 0
      = some [⟨"CVE-2021-3281", "django vuln", "OSV"⟩] := by
    rw [QueryBatch, queryBatchAux_lookup]
    decide
  exact ⟨(C10_no_empty_bindings exResp exDeps 0).1 _ hq,
    (C10_no_empty_bindings exResp exDeps 1).2 exDep1 (by decide) (by decide)⟩

/-- Once a CVE is bound in the score map, later row insertions keep it
bound. -/
theorem epssFoldl_isSome_mono (rows : List EPSSData) :
    ∀ (m : String → Option EPSSScore) (c : String), (m c).isSome →
      ((rows.foldl epssInsert m) c).isSome := by
  induction rows with
  | nil => intro m c h; exact h
  | cons row rest ih =>
    intro m c h
    rw [List.foldl_cons]
    refine ih _ c ?_
    rw [epssInsert]
    by_cases hc : c = row.cve
    · rw [if_pos hc]; rfl
    · rw [if_neg hc]; exact h

/-- A row of the chunk being written ends up bound in the map. -/
theorem epssFoldl_binds (rows : List EPSSData) :
    ∀ (m : String → Option EPSSScore) (r : EPSSData), r ∈ rows →
      ((rows.foldl epssInsert m) r.cve).isSome := by
  induction rows with
  | nil => intro m r hr; cases hr
  | cons row rest ih =>
    intro m r hr
    rw [List.foldl_cons]
    rcases List.mem_cons.mp hr with rfl | hr'
    · refine epssFoldl_isSome_mono rest _ r.cve ?_
      rw [epssInsert, if_pos rfl]
      rfl
    · exact ih _ r hr'

/-- Bound CVEs stay bound across later chunks. -/
theorem fetchChunks_isSome_mono (oracle : List String → Option (List EPSSData))
    (chunks : List (List String)) :
    ∀ (m : String → Option EPSSScore) (c : String), (m c).isSome →
      ((chunks.foldl (fetchChunkStep oracle) m) c).isSome := by
  induction chunks with
  | nil => intro m c h; exact h
  | cons chunk rest ih =>
    intro m c h
    rw [List.foldl_cons]
    refine ih _ c ?_
    rw [fetchChunkStep]
    cases oracle chunk with
    | some rows => exact epssFoldl_isSome_mono rows m c h
    | none => exact h

/-- When every chunk fails, the fold leaves the map unchanged. -/
theorem fetchChunks_all_fail (oracle : List String → Option (List EPSSData))
    (chunks : List (List String)) :
    ∀ (m : String → Option EPSSScore), (∀ chunk ∈ chunks, oracle chunk = none) →
      chunks.foldl (fetchChunkStep oracle) m = m := by
  induction chunks with
  | nil => intro m _; rfl
  | cons chunk rest ih =>
    intro m h
    rw [List.foldl_cons, fetchChunkStep, h chunk (List.mem_cons_self chunk rest),
      ih m fun c hc => h c (List.mem_cons_of_mem _ hc)]

/-- A row of a successfully decoded chunk ends up bound in the final map. -/
theorem fetchChunks_binds (oracle : List String → Option (List EPSSData))
    (chunks : List (List String)) :
    ∀ (m : String → Option EPSSScore), ∀ chunk ∈ chunks, ∀ rows,
      oracle chunk = some rows → ∀ r ∈ rows,
      ((chunks.foldl (fetchChunkStep oracle) m) r.cve).isSome := by
  induction chunks with
  | nil => intro m chunk hc; cases hc
  | cons c0 rest ih =>
    intro m chunk hc rows hrows r hr
    rw [List.foldl_cons]
    rcases List.mem_cons.mp hc with rfl | hc'
    · refine fetchChunks_isSome_mono oracle rest _ r.cve ?_
      rw [fetchChunkStep, hrows]
      exact epssFoldl_binds rows m r hr
    · exact ih _ chunk hc' rows hrows r hr

/-- C7: `FetchScores` never propagates an error; failing chunks are skipped
so that, when every chunk fails, the score map is empty, while every row of a
successfully decoded chunk is present in the returned map; and enriching with
an empty score map leaves every finding exactly as it was (KEV entries keep
their zero score and percentile). -/
theorem C7_epss_failures_skipped (oracle : List String → Option (List EPSSData))
    (cveIDs : List String) :
    (FetchScores oracle cveIDs).2 = none ∧
    ((∀ chunk ∈ chunks100 cveIDs, oracle chunk = none) →
      ∀ c, (FetchScores oracle cveIDs).1 c = none) ∧
    (∀ chunk ∈ chunks100 cveIDs, ∀ rows, oracle chunk = some rows →
      ∀ r ∈ rows, ((FetchScores oracle cveIDs).1 r.cve).isSome) ∧
    (∀ findings : List Finding, enrichFindings (fun _ => none) findings = findings) := by
  refine ⟨rfl, ?_, ?_, ?_⟩
  · intro h c
    show ((chunks100 cveIDs).foldl (fetchChunkStep oracle) (fun _ => none)) c = none
    rw [fetchChunks_all_fail oracle (chunks100 cveIDs) _ h]
  · intro chunk hc rows hrows r hr
    exact fetchChunks_binds oracle (chunks100 cveIDs) _ chunk hc rows hrows r hr
  · intro findings
    have hone : ∀ f : Finding,
        { f with kevs := f.kevs.map (enrichKEV fun _ => none) } = f := by
      intro f
      have hid : (enrichKEV fun _ => none) = id := funext fun _ => rfl
      rw [hid, List.map_id]
    rw [enrichFindings]
    induction findings with
    | nil => rfl
    | cons f rest ih =>
      simp only [List.map_cons]
      rw [hone f, ih]

/-- Witness for C7: an all-failing oracle yields no error and an empty map, a
succeeding oracle's row is present, and empty-map enrichment is the
identity. -/
theorem C7_epss_failures_skipped_witness :
    (FetchScores (fun _ => none) ["CVE-2021-3281"]).2 = none ∧
    (FetchScores (fun _ => none) ["CVE-2021-3281"]).1 "CVE-2021-3281" = none ∧
    ((FetchScores exOracleOK ["CVE-2021-3281"]).1 "CVE-2021-3281").isSome ∧
    enrichFindings (fun _ => none) [exFinding] = [exFinding] :=
  ⟨(C7_epss_failures_skipped (fun _ => none) ["CVE-2021-3281"]).1,
   (C7_epss_failures_skipped (fun _ => none) ["CVE-2021-3281"]).2.1
     (fun _ _ => rfl) "CVE-2021-3281",
   (C7_epss_failures_skipped exOracleOK ["CVE-2021-3281"]).2.2.1
     ["CVE-2021-3281"] (by decide) [⟨"CVE-2021-3281", 1, 1⟩] (by decide)
     ⟨"CVE-2021-3281", 1, 1⟩ (by decide),
   (C7_epss_failures_skipped (fun _ => none) ["CVE-2021-3281"]).2.2.2 [exFinding]⟩

/-- Closed form of the step-4 fold: findings are the kept per-entry findings
in iteration order, `allKEVCVEs` the concatenated per-entry matched IDs. -/
theorem crossReference_foldl (deps : List Dependency)
    (kevCatalog : String → Option KEVInfo) (iter : List (Nat × List CVEInfo)) :
    ∀ acc, iter.foldl (xrefStep deps kevCatalog) acc =
      (acc.1 ++ iter.filterMap (xrefFinding deps kevCatalog),
       acc.2 ++ iter.flatMap (xrefIDs kevCatalog)) := by
  induction iter with
  | nil => intro acc; simp
  | cons p l ih =>
    intro acc
    rw [List.foldl_cons, ih]
    cases hf : xrefFinding deps kevCatalog p with
    | some fnd =>
      simp [xrefStep, hf, List.filterMap_cons, List.append_assoc]
    | none =>
      simp [xrefStep, hf, List.filterMap_cons, List.append_assoc]

/-- `crossReference` in closed form. -/
theorem crossReference_eq (deps : List Dependency) (iter : List (Nat × List CVEInfo))
    (kevCatalog : String → Option KEVInfo) :
    crossReference deps iter kevCatalog =
      (iter.filterMap (xrefFinding deps kevCatalog),
       iter.flatMap (xrefIDs kevCatalog)) := by
  rw [crossReference, crossReference_foldl]
  simp

/-- Every cross-referenced finding's KEV list is exactly its CVEs' catalog
hits, and is non-empty. -/
theorem crossReference_mem (deps : List Dependency) (iter : List (Nat × List CVEInfo))
    (kevCatalog : String → Option KEVInfo) (f : Finding)
    (hf : f ∈ (crossReference deps iter kevCatalog).1) :
    f.kevs = f.cves.filterMap (fun cve => kevCatalog cve.id) ∧ f.kevs ≠ [] := by
  rw [crossReference_eq] at hf
  simp only at hf
  rcases List.mem_filterMap.mp hf with ⟨p, _, hsome⟩
  rw [xrefFinding] at hsome
  by_cases he : (p.2.filterMap (fun cve => kevCatalog cve.id)).isEmpty
  · rw [if_pos he] at hsome; cases hsome
  · rw [if_neg he] at hsome
    cases hsome
    exact ⟨rfl, by simpa using he⟩

/-- Unpacking membership in the enriched finding list. -/
theorem enrichFindings_mem (scores : String → Option EPSSScore) (fs : List Finding)
    (f : Finding) (hf : f ∈ enrichFindings scores fs) :
    ∃ f0 ∈ fs, f = { f0 with kevs := f0.kevs.map (enrichKEV scores) } := by
  rw [enrichFindings] at hf
  rcases List.mem_map.mp hf with ⟨f0, h0, heq⟩
  exact ⟨f0, h0, heq.symm⟩

/-- Unpacking membership in the step-6 loop output. -/
theorem filterLoop_mem (t : Rat) :
    ∀ (fs : List Finding) (f : Finding), f ∈ filterLoop t fs →
      ∃ f0 ∈ fs, f = { f0 with kevs := filterKEVs t f0.kevs } ∧ f.kevs ≠ [] := by
  intro fs
  induction fs with
  | nil => intro f hf; simp [filterLoop] at hf
  | cons f0 rest ih =>
    intro f hf
    rw [filterLoop] at hf
    by_cases he : (filterKEVs t f0.kevs).isEmpty
    · rw [if_pos he] at hf
      rcases ih f hf with ⟨f1, h1, h2⟩
      exact ⟨f1, List.mem_cons_of_mem _ h1, h2⟩
    · rw [if_neg he] at hf
      rcases List.mem_cons.mp hf with rfl | hf'
      · refine ⟨f0, List.mem_cons_self f0 rest, rfl, ?_⟩
        show filterKEVs t f0.kevs ≠ []
        simpa using he
      · rcases ih f hf' with ⟨f1, h1, h2⟩
        exact ⟨f1, List.mem_cons_of_mem _ h1, h2⟩

/-- Unpacking membership in the step-6 output. -/
theorem filterFindings_mem (t : Rat) (fs : List Finding) (f : Finding)
    (hf : f ∈ filterFindings t fs) :
    f ∈ fs ∨ ∃ f0 ∈ fs, f = { f0 with kevs := filterKEVs t f0.kevs } ∧ f.kevs ≠ [] := by
  rw [filterFindings] at hf
  by_cases ht : 0 < t
  · rw [if_pos ht] at hf
    exact Or.inr (filterLoop_mem t fs f hf)
  · rw [if_neg ht] at hf
    exact Or.inl hf

/-- C1: every finding `Scan` returns keeps at least one KEV entry, and its
CVE list contains a catalog hit — a dependency entry without a KEV match
never yields a finding. -/
theorem C1_findings_have_kev (deps : List Dependency) (iter : List (Nat × List CVEInfo))
    (kevCatalog : String → Option KEVInfo)
    (epssFetch : List String → (String → Option EPSSScore)) (threshold : Rat)
    (f : Finding) (hf : f ∈ Scan deps iter kevCatalog epssFetch threshold) :
    f.kevs ≠ [] ∧ ∃ cve ∈ f.cves, (kevCatalog cve.id).isSome := by
  have hmatch : ∀ g : Finding, g ∈ (crossReference deps iter kevCatalog).1 →
      ∃ cve ∈ g.cves, (kevCatalog cve.id).isSome := by
    intro g hg
    rcases crossReference_mem deps iter kevCatalog g hg with ⟨hk, hne⟩
    obtain ⟨k, hkmem⟩ := List.exists_mem_of_ne_nil _ hne
    rw [hk] at hkmem
    rcases List.mem_filterMap.mp hkmem with ⟨cve, hcve, hsome⟩
    exact ⟨cve, hcve, by rw [hsome]; rfl⟩
  have henr : ∀ g : Finding,
      g ∈ (if (crossReference deps iter kevCatalog).2.isEmpty
           then (crossReference deps iter kevCatalog).1
           else enrichFindings (epssFetch (crossReference deps iter kevCatalog).2)
             (crossReference deps iter kevCatalog).1) →
      g.kevs ≠ [] ∧ ∃ cve ∈ g.cves, (kevCatalog cve.id).isSome := by
    intro g hg
    by_cases h2 : (crossReference deps iter kevCatalog).2.isEmpty
    · rw [if_pos h2] at hg
      exact ⟨(crossReference_mem deps iter kevCatalog g hg).2, hmatch g hg⟩
    · rw [if_neg h2] at hg
      rcases enrichFindings_mem _ _ g hg with ⟨g0, hg0, rfl⟩
      refine ⟨?_, hmatch g0 hg0⟩
      show g0.kevs.map _ ≠ []
      simpa using (crossReference_mem deps iter kevCatalog g0 hg0).2
  rw [Scan] at hf
  rcases filterFindings_mem threshold _ f hf with hfin | ⟨f0, hf0, rfl, hne⟩
  · exact henr f hfin
  · exact ⟨hne, (henr f0 hf0).2⟩

/-- C9: in `Scan`'s output, every KEV entry's EPSS fields are either both at
their zero defaults or both assigned together from the single score-map
record under that entry's exact CVE ID — provided the catalog, as
`parseKEVData` builds it, delivers entries with zero EPSS fields. -/
theorem C9_epss_fields_consistent (deps : List Dependency)
    (iter : List (Nat × List CVEInfo)) (kevCatalog : String → Option KEVInfo)
    (epssFetch : List String → (String → Option EPSSScore)) (threshold : Rat)
    (hzero : ∀ c k, kevCatalog c = some k → k.epssScore = 0 ∧ k.epssPercentile = 0)
    (f : Finding) (hf : f ∈ Scan deps iter kevCatalog epssFetch threshold)
    (kev : KEVInfo) (hkev : kev ∈ f.kevs) :
    (kev.epssScore = 0 ∧ kev.epssPercentile = 0) ∨
    ∃ s, epssFetch (crossReference deps iter kevCatalog).2 kev.cveID = some s ∧
      kev.epssScore = s.score ∧ kev.epssPercentile = s.percentile := by
  have hxr : ∀ g ∈ (crossReference deps iter kevCatalog).1, ∀ k ∈ g.kevs,
      k.epssScore = 0 ∧ k.epssPercentile = 0 := by
    intro g hg k hk
    rcases crossReference_mem deps iter kevCatalog g hg with ⟨hkeq, _⟩
    rw [hkeq] at hk
    rcases List.mem_filterMap.mp hk with ⟨cve, _, hsome⟩
    exact hzero cve.id k hsome
  have hstage : ∀ g : Finding,
      g ∈ (if (crossReference deps iter kevCatalog).2.isEmpty
           then (crossReference deps iter kevCatalog).1
           else enrichFindings (epssFetch (crossReference deps iter kevCatalog).2)
             (crossReference deps iter kevCatalog).1) →
      ∀ k ∈ g.kevs, (k.epssScore = 0 ∧ k.epssPercentile = 0) ∨
        ∃ s, epssFetch (crossReference deps iter kevCatalog).2 k.cveID = some s ∧
          k.epssScore = s.score ∧ k.epssPercentile = s.percentile := by
    intro g hg k hk
    by_cases h2 : (crossReference deps iter kevCatalog).2.isEmpty
    · rw [if_pos h2] at hg
      exact Or.inl (hxr g hg k hk)
    · rw [if_neg h2] at hg
      rcases enrichFindings_mem _ _ g hg with ⟨g0, hg0, rfl⟩
      rcases List.mem_map.mp hk with ⟨k0, hk0, rfl⟩
      have hz := hxr g0 hg0 k0 hk0
      cases hs : epssFetch (crossReference deps iter kevCatalog).2 k0.cveID with
      | none =>
        simp only [enrichKEV, hs]
        exact Or.inl hz
      | some s =>
        refine Or.inr ⟨s, ?_, ?_, ?_⟩ <;> simp [enrichKEV, hs]
  rw [Scan] at hf
  rcases filterFindings_mem threshold _ f hf with hfin | ⟨f0, hf0, rfl, _⟩
  · exact hstage f hfin kev hkev
  · have hk0 : kev ∈ f0.kevs := by
      have : kev ∈ filterKEVs threshold f0.kevs := hkev
      exact (List.mem_filter.mp this).1
    exact hstage f0 hf0 kev hk0

/-- Per-finding KEV filter count is antitone in the threshold. -/
theorem filterKEVs_length_mono (t1 t2 : Rat) (h : t1 ≤ t2) (ks : List KEVInfo) :
    (filterKEVs t2 ks).length ≤ (filterKEVs t1 ks).length := by
  have hsub : List.Sublist (filterKEVs t2 ks) (filterKEVs t1 ks) := by
    apply List.monotone_filter_right
    intro k hk
    simp only [decide_eq_true_eq] at hk ⊢
    exact le_trans h hk
  exact hsub.length_le

/-- The step-6 loop's total KEV count is the sum of the per-finding filtered
lengths (dropped findings contribute zero either way). -/
theorem filterLoop_totalKEVs (t : Rat) :
    ∀ fs : List Finding, totalKEVs (filterLoop t fs)
      = (fs.map (fun f => (filterKEVs t f.kevs).length)).sum := by
  intro fs
  induction fs with
  | nil => rfl
  | cons f rest ih =>
    rw [filterLoop]
    by_cases he : (filterKEVs t f.kevs).isEmpty
    · rw [if_pos he]
      have hlen : (filterKEVs t f.kevs).length = 0 := by
        simp [List.isEmpty_iff.mp he]
      simp only [totalKEVs, List.map_cons, List.sum_cons] at ih ⊢
      omega
    · rw [if_neg he]
      simp only [totalKEVs, List.map_cons, List.sum_cons] at ih ⊢
      omega

/-- Any threshold filter retains at most the unfiltered KEV count. -/
theorem filterFindings_totalKEVs_le (t : Rat) (fs : List Finding) :
    totalKEVs (filterFindings t fs) ≤ totalKEVs fs := by
  rw [filterFindings]
  by_cases ht : 0 < t
  · rw [if_pos ht, filterLoop_totalKEVs, totalKEVs]
    apply List.sum_le_sum
    intro f _
    exact List.length_filter_le _ _
  · rw [if_neg ht]

/-- C4: raising the EPSS threshold never increases the number of retained KEV
entries; threshold 0 leaves the finding list exactly unchanged; under a
positive threshold a KEV entry is retained iff its score is not strictly
below the threshold. -/
theorem C4_threshold_filter_monotone (t1 t2 : Rat) (findings : List Finding)
    (h : t1 ≤ t2) :
    totalKEVs (filterFindings t2 findings) ≤ totalKEVs (filterFindings t1 findings) ∧
    filterFindings 0 findings = findings ∧
    (∀ t : Rat, 0 < t → ∀ f ∈ findings, ∀ kev : KEVInfo,
      kev ∈ filterKEVs t f.kevs ↔ kev ∈ f.kevs ∧ ¬kev.epssScore < t) := by
  refine ⟨?_, ?_, ?_⟩
  · by_cases ht1 : 0 < t1
    · rw [filterFindings, if_pos (lt_of_lt_of_le ht1 h), filterFindings, if_pos ht1,
        filterLoop_totalKEVs, filterLoop_totalKEVs]
      apply List.sum_le_sum
      intro f _
      exact filterKEVs_length_mono t1 t2 h f.kevs
    · calc totalKEVs (filterFindings t2 findings) ≤ totalKEVs findings :=
            filterFindings_totalKEVs_le t2 findings
        _ = totalKEVs (filterFindings t1 findings) := by
            rw [filterFindings, if_neg ht1]
  · rw [filterFindings, if_neg (lt_irrefl 0)]
  · intro t _ f _ kev
    rw [filterKEVs, List.mem_filter]
    simp [not_lt]

/-- Witness for C4 at thresholds 0 and 1 on a one-finding list whose KEV
entry has score 0. -/
theorem C4_threshold_filter_monotone_witness :
    totalKEVs (filterFindings 1 [exFinding]) ≤ totalKEVs (filterFindings 0 [exFinding]) ∧
    filterFindings 0 [exFinding] = [exFinding] ∧
    (exKEV ∈ filterKEVs 1 exFinding.kevs ↔ exKEV ∈ exFinding.kevs ∧ ¬exKEV.epssScore < 1) :=
  ⟨(C4_threshold_filter_monotone 0 1 [exFinding] (by decide)).1,
   (C4_threshold_filter_monotone 0 1 [exFinding] (by decide)).2.1,
   (C4_threshold_filter_monotone 0 1 [exFinding] (by decide)).2.2 1 (by decide)
     exFinding (by decide) exKEV⟩

/-- C2 (refuting): the cross-reference stage ranges over the Go map
`cvesByDep`, whose iteration order Go randomizes; over the same map
`{0 ↦ [exCVE0], 1 ↦ [exCVE1]}` presented in its two iteration orders, `Scan`
returns different finding sequences, so the output order is not the stable
parsing-index order and can differ between two executions. -/
theorem C2_scan_order_dependent :
    exIter2 = exIter1.reverse ∧
    Scan exDeps exIter1 exCatalog (fun _ => fun _ => none) 0 ≠
      Scan exDeps exIter2 exCatalog (fun _ => fun _ => none) 0 := by
  exact ⟨by decide, by decide⟩

/-- C3 (refuting, as stated): with two dependencies matching the same KEV
CVE, the single EPSS call receives `allKEVCVEs` with that CVE ID twice — the
passed list is not deduplicated. -/
theorem C3_duplicate_ids_passed :
    scanEPSSCalls exDeps exIterDup exCatalog = [["CVE-2021-3281", "CVE-2021-3281"]] ∧
    ¬(["CVE-2021-3281", "CVE-2021-3281"] : List String).Nodup := by
  exact ⟨by decide, by decide⟩

/-- C3 (amended): whenever any CVE matched, the EPSS client is called exactly
once, with `allKEVCVEs` — the list of matched CVE IDs in match order, holding
exactly the CVE IDs with a KEV match, possibly with duplicates. -/
theorem C3_amended_epss_called_once (deps : List Dependency)
    (iter : List (Nat × List CVEInfo)) (kevCatalog : String → Option KEVInfo) :
    (scanEPSSCalls deps iter kevCatalog).length ≤ 1 ∧
    (scanEPSSCalls deps iter kevCatalog = [] ↔
      (crossReference deps iter kevCatalog).2 = []) ∧
    ∀ ids ∈ scanEPSSCalls deps iter kevCatalog,
      ids = (crossReference deps iter kevCatalog).2 ∧
      ∀ c, c ∈ ids ↔ ∃ p ∈ iter, ∃ cve ∈ p.2, cve.id = c ∧ (kevCatalog cve.id).isSome := by
  refine ⟨?_, ?_, ?_⟩
  · rw [scanEPSSCalls]
    split <;> simp
  · by_cases h : (crossReference deps iter kevCatalog).2.isEmpty
    · rw [scanEPSSCalls, if_pos h]
      simp [List.isEmpty_iff.mp h]
    · rw [scanEPSSCalls, if_neg h]
      constructor
      · intro hx
        cases hx
      · intro hx
        exact absurd (List.isEmpty_iff.mpr hx) h
  · intro ids hids
    rw [scanEPSSCalls] at hids
    by_cases h : (crossReference deps iter kevCatalog).2.isEmpty
    · rw [if_pos h] at hids
      cases hids
    · rw [if_neg h] at hids
      rcases List.mem_singleton.mp hids with rfl
      refine ⟨rfl, ?_⟩
      intro c
      rw [crossReference_eq]
      simp only [xrefIDs, List.mem_flatMap, List.mem_map, List.mem_filter]
      constructor
      · rintro ⟨p, hp, cve, ⟨hcve, hsome⟩, rfl⟩
        exact ⟨p, hp, cve, hcve, rfl, hsome⟩
      · rintro ⟨p, hp, cve, hcve, rfl, hsome⟩
        exact ⟨p, hp, cve, ⟨hcve, hsome⟩, rfl⟩

/-- Witness for the amended C3 on the duplicate-match input. -/
theorem C3_amended_epss_called_once_witness :
    (scanEPSSCalls exDeps exIterDup exCatalog).length ≤ 1 ∧
    (["CVE-2021-3281", "CVE-2021-3281"] = (crossReference exDeps exIterDup exCatalog).2 ∧
     ∀ c, c ∈ (["CVE-2021-3281", "CVE-2021-3281"] : List String) ↔
       ∃ p ∈ exIterDup, ∃ cve ∈ p.2, cve.id = c ∧ (exCatalog cve.id).isSome) :=
  ⟨(C3_amended_epss_called_once exDeps exIterDup exCatalog).1,
   (C3_amended_epss_called_once exDeps exIterDup exCatalog).2.2
     ["CVE-2021-3281", "CVE-2021-3281"] (by decide)⟩

/-- Witness for C1 on a concrete scan with two KEV-matched dependencies. -/
theorem C1_findings_have_kev_witness :
    exFinding ∈ Scan exDeps exIter1 exCatalog (fun _ => fun _ => none) 0 ∧
    (exFinding.kevs ≠ [] ∧ ∃ cve ∈ exFinding.cves, (exCatalog cve.id).isSome) :=
  ⟨by decide,
   C1_findings_have_kev exDeps exIter1 exCatalog (fun _ => fun _ => none) 0 exFinding
     (by decide)⟩

/-- Witness for C9 on a concrete scan whose enrichment assigns both fields
from one score record. -/
theorem C9_epss_fields_consistent_witness :
    (exKEVScored.epssScore = 0 ∧ exKEVScored.epssPercentile = 0) ∨
    ∃ s, exEpssFetch (crossReference exDeps exIter1 exCatalog).2 exKEVScored.cveID
        = some s ∧
      exKEVScored.epssScore = s.score ∧ exKEVScored.epssPercentile = s.percentile :=
  C9_epss_fields_consistent exDeps exIter1 exCatalog exEpssFetch 0
    (by
      intro c k h
      simp only [exCatalog] at h
      split_ifs at h
      all_goals cases h
      all_goals exact ⟨rfl, rfl⟩)
    exFindingScored (by decide) exKEVScored (by decide)

end KevCheck
